import Mathlib

/-!
Verification of the client-side playback synchronization engine of the QT
storytelling app (`front.js`).  The engine keeps a declarative timeline of
(time, emotion) cues in sync with an audio element's playback position via
one-shot timers, under pause / resume / story-change.

The embedding below translates the module-level mutable state of `front.js`
into an explicit state record, and each function of the source into a state
transformer.  Wall-clock time and audio position are modelled as rationals
(the source computes with JS numbers; only sign tests, subtraction and a
fixed *1000 scaling occur).  The browser timer queue is modelled explicitly:
`timeouts` holds the pending cue triggers (the source's `timeouts` array of
timer ids), and `emotionClears` holds the pending overlay auto-clear timers
scheduled by `displayEmotion` (absolute wall-clock fire times); firing a
timer removes it from its queue and runs its callback's effect.
-/

namespace QT

/-- One entry of a story's `emotions` array: `{time, emotion, consumed}`.
`time` is the offset in seconds from narration start. -/
structure Cue where
  time : ℚ
  emotion : String
  consumed : Bool
deriving DecidableEq

/-- One story document: `{name, audio_name, audio, emotions}`. -/
structure Story where
  name : String
  audio_name : String
  audio : String
  emotions : List Cue
deriving DecidableEq

/-- A pending one-shot cue trigger armed by `scheduleEmotions`: the callback
closes over one cue object, identified here by its story index and its
position in that story's `emotions` array; `delay` is the `setTimeout`
delay in milliseconds computed at arm time. -/
structure Trigger where
  storyIdx : Nat
  cueIdx : Nat
  delay : ℚ
deriving DecidableEq

/-- `CONFIG.faceImages`. -/
structure FaceImages where
  blinkingClosed : String
  blinkingOpen : String
  normalClosed : String
  normalOpen : String

/-- `CONFIG.faceImages` values. -/
def faceImages : FaceImages :=
  ⟨"normal.png", "normal4.png", "normal2.png", "normal3.png"⟩

/-- `CONFIG.urls.qtBase`. -/
def qtBase : String := "/qt/"

/-- `CONFIG.intervals.emotionDelay` (ms): how long an emotion remains displayed. -/
def emotionDelay : ℚ := 1000

/-- `CONFIG.emotionImageMap`: emotion key → face image file, a closed table.
An absent key (JS: undefined, falsy) is `none`. -/
def emotionImageMap : String → Option String
  | "affection" => some "affection.png"
  | "colère" => some "colère.png"
  | "confusion" => some "confusion.png"
  | "cri" => some "cri.png"
  | "embarassement" => some "embarassement.png"
  | "joie" => some "joie.png"
  | "neutre" => some "neutre.png"
  | "peur" => some "peur.png"
  | "surprise" => some "surprise.png"
  | "timide" => some "timide.png"
  | "tristesse" => some "tristesse.png"
  | _ => none

/-- The module-level mutable state of `front.js`, plus the parts of the
browser environment the engine reads and writes: the audio element
(`audioSrc`, `audioPlaying`, `audioPos` = `currentTime` in seconds), the
face `<img>` (`faceImageSrc`), the wall clock `now` (ms), and the two timer
queues.  `emotionSchedule` in the source is an alias into
`CONFIG.stories[i].emotions`; aliasing is modelled by storing the index
`schedIdx` and keeping the single copy of each cue inside `stories`. -/
structure SchedState where
  timeouts : List Trigger
  blinking : Bool
  closedMouth : Bool
  keepMouthShut : Bool
  currentEmotion : Option String
  isPaused : Bool
  hasEnded : Bool
  stories : List Story
  schedIdx : Nat
  audioSrc : String
  audioPlaying : Bool
  audioPos : ℚ
  faceImageSrc : String
  now : ℚ
  emotionClears : List ℚ
deriving DecidableEq

/-- The current `emotionSchedule`: the selected story's `emotions` array
(the module initialises it to `[]`, matching an out-of-range `schedIdx`). -/
def emotionSchedule (s : SchedState) : List Cue :=
  ((s.stories.get? s.schedIdx).map Story.emotions).getD []

/-- `displayEmotion(emotion)`: if the emotion is mapped, set `currentEmotion`,
write the overlay image to the face element, and schedule
`() => currentEmotion = null` after `emotionDelay` ms.  The scheduled clear
is unconditional — it is never cancelled and does not check that the
activation it belongs to is still the current one. -/
def displayEmotion (s : SchedState) (emotion : String) : SchedState :=
  match emotionImageMap emotion with
  | some img =>
      { s with currentEmotion := some emotion,
               faceImageSrc := qtBase ++ img,
               emotionClears := s.emotionClears ++ [s.now + emotionDelay] }
  | none => s

/-- The overlay auto-clear callback `() => { currentEmotion = null; }` firing:
the timer scheduled for wall-clock instant `t` leaves the queue and runs,
unconditionally resetting the overlay. -/
def runEmotionClear (s : SchedState) (t : ℚ) : SchedState :=
  { s with emotionClears := s.emotionClears.erase t, currentEmotion := none }

/-- The face image chosen by the render tick from blink/mouth state
(the nested conditional in `startClock`). -/
def faceComposite (s : SchedState) : String :=
  qtBase ++
    (if s.blinking then
      (if s.closedMouth || s.keepMouthShut then faceImages.blinkingClosed
       else faceImages.blinkingOpen)
     else
      (if s.closedMouth || s.keepMouthShut then faceImages.normalClosed
       else faceImages.normalOpen))

/-- One tick of the render cycle in `startClock` (every 100 ms): update the
face image only when not paused and no emotion overlay is active. -/
def renderTick (s : SchedState) : SchedState :=
  if s.isPaused = false ∧ s.currentEmotion = none then
    { s with faceImageSrc := faceComposite s }
  else s

/-- Blink cycle (every 3 s): `blinking = true`. -/
def blinkStart (s : SchedState) : SchedState := { s with blinking := true }

/-- Blink cycle end (200 ms later): `blinking = false`. -/
def blinkEnd (s : SchedState) : SchedState := { s with blinking := false }

/-- Mouth cycle (every 500 ms): `closedMouth = true`. -/
def mouthStart (s : SchedState) : SchedState := { s with closedMouth := true }

/-- Mouth cycle end (250 ms later): `closedMouth = false`. -/
def mouthEnd (s : SchedState) : SchedState := { s with closedMouth := false }

/-- The `emotionSchedule.forEach` body of `scheduleEmotions`, iterating the
cue list with its position: for each cue at index `i` compute
`delay = (time − audio.currentTime) * 1000` and, when the cue is not yet
consumed and the delay is positive, push one one-shot trigger. -/
def armFrom (pos : ℚ) (si : Nat) : Nat → List Cue → List Trigger
  | _, [] => []
  | i, c :: rest =>
      if c.consumed = false ∧ (c.time - pos) * 1000 > 0 then
        ⟨si, i, (c.time - pos) * 1000⟩ :: armFrom pos si (i + 1) rest
      else armFrom pos si (i + 1) rest

/-- The full set of triggers armed by one `scheduleEmotions` pass. -/
def armTriggers (cues : List Cue) (pos : ℚ) (si : Nat) : List Trigger :=
  armFrom pos si 0 cues

/-- `clearScheduledEmotions()`: `clearTimeout` every tracked id and empty the
array — no callback runs. -/
def clearScheduledEmotions (s : SchedState) : SchedState :=
  { s with timeouts := [] }

/-- `scheduleEmotions()`: clear all previously scheduled triggers, then arm
one trigger per unconsumed future cue of the current schedule. -/
def scheduleEmotions (s : SchedState) : SchedState :=
  let s1 := clearScheduledEmotions s
  { s1 with timeouts :=
      s1.timeouts ++ armTriggers (emotionSchedule s1) s1.audioPos s1.schedIdx }

/-- `pauseAudio()`: pause the audio element, set `isPaused` and
`keepMouthShut`, cancel every pending trigger. -/
def pauseAudio (s : SchedState) : SchedState :=
  clearScheduledEmotions
    { s with audioPlaying := false, isPaused := true, keepMouthShut := true }

/-- `resumeAudio()`: clear `isPaused`; unless playback has ended, clear
`keepMouthShut`, start the audio element and (re)arm the schedule. -/
def resumeAudio (s : SchedState) : SchedState :=
  let s1 := { s with isPaused := false }
  if s1.hasEnded then s1
  else scheduleEmotions { s1 with keepMouthShut := false, audioPlaying := true }

/-- Look up the cue object a trigger's callback closed over. -/
def getCue (stories : List Story) (t : Trigger) : Option Cue :=
  (stories.get? t.storyIdx).bind (fun st => st.emotions.get? t.cueIdx)

/-- In-place update of one list element (JS object mutation through an
alias); out-of-range indices change nothing. -/
def modifyAt {α : Type} : List α → Nat → (α → α) → List α
  | [], _, _ => []
  | a :: l, 0, f => f a :: l
  | a :: l, n + 1, f => a :: modifyAt l n f

/-- First half of a fired trigger's callback: the timer leaves the pending
queue and `timepoint.consumed = true` mutates the cue object (shared with
the story catalog). -/
def markCueConsumed (s : SchedState) (t : Trigger) : SchedState :=
  { s with
      timeouts := s.timeouts.erase t,
      stories := modifyAt s.stories t.storyIdx (fun st =>
        { st with emotions := modifyAt st.emotions t.cueIdx (fun cue => { cue with consumed := true }) }) }

/-- A pending trigger fires: `timepoint.consumed = true;
displayEmotion(timepoint.emotion);`. -/
def fireTrigger (s : SchedState) (t : Trigger) : SchedState :=
  match getCue s.stories t with
  | none => { s with timeouts := s.timeouts.erase t }
  | some c => displayEmotion (markCueConsumed s t) c.emotion

/-- Reset every `consumed` flag of a story (the `for...of` loop of
`selectStory`, mutating the shared cue objects). -/
def resetConsumed (st : Story) : Story :=
  { st with emotions := st.emotions.map (fun c => { c with consumed := false }) }

/-- `selectStory(index)`.  `CONFIG.stories[index]` is `undefined` for a
negative or too-large index, so the very next line
(`emotionSchedule = story.emotions`) throws a TypeError before any state is
assigned: this is the `Except.error` branch, carrying the unchanged state.
In range, the schedule is re-aimed at story `index`, all of its cues'
`consumed` flags are reset, and the audio source is replaced. -/
def selectStory (s : SchedState) (index : Int) : Except SchedState SchedState :=
  match (if 0 ≤ index then s.stories.get? index.toNat else none) with
  | none => Except.error s
  | some story =>
      Except.ok
        { s with
            schedIdx := index.toNat,
            stories := s.stories.set index.toNat (resetConsumed story),
            audioSrc := story.audio }

/-- `selectStory` as a partial map: `some` on the non-throwing branch. -/
def selectOk (s : SchedState) (index : Int) : Option SchedState :=
  match selectStory s index with
  | Except.ok s1 => some s1
  | Except.error _ => none

/-- The story-button click handler:
`selectStory(index); hasEnded = false; resumeAudio();`. -/
def clickStory (s : SchedState) (index : Int) : Option SchedState :=
  (selectOk s index).map (fun s1 => resumeAudio { s1 with hasEnded := false })

/-- The audio `ended` listener: `keepMouthShut = true; hasEnded = true;`. -/
def endedEvent (s : SchedState) : SchedState :=
  { s with keepMouthShut := true, hasEnded := true }

/-- The set of triggers `scheduleEmotions` would arm in state `s` — the
pending-fire set of an Armed-Playing scheduler whose triggers were armed at
the current audio position. -/
def pendingOf (s : SchedState) : List Trigger :=
  armTriggers (emotionSchedule s) s.audioPos s.schedIdx

/-- What firing an armed trigger does: the cue object it closed over gets
`consumed = true`, and the whole callback equals mark-consumed followed by
the Emotion Overlay activation `displayEmotion(timepoint.emotion)`. -/
def FiringEffect (s0 : SchedState) (t : Trigger) : Prop :=
  ∀ c : Cue, getCue s0.stories t = some c →
    getCue (fireTrigger s0 t).stories t = some { c with consumed := true } ∧
    fireTrigger s0 t = displayEmotion (markCueConsumed s0 t) c.emotion

/-- Conclusion of the resume-arming claim: `resumeAudio` leaves all
`consumed` flags untouched, arms exactly one trigger (with delay
`(time − currentAudioPosition) * 1000` and the firing effect above) for
every unconsumed cue with positive delay, and arms nothing for any other
cue. -/
def ResumeArms (s : SchedState) : Prop :=
  (resumeAudio s).stories = s.stories ∧
  ∀ i : Nat, ∀ c : Cue, (emotionSchedule s).get? i = some c →
    ((c.consumed = false ∧ (c.time - s.audioPos) * 1000 > 0 →
      (resumeAudio s).timeouts.countP (fun t => t.cueIdx == i) = 1 ∧
      ∀ t ∈ (resumeAudio s).timeouts, t.cueIdx = i →
        t.storyIdx = s.schedIdx ∧ t.delay = (c.time - s.audioPos) * 1000 ∧
        FiringEffect (resumeAudio s) t) ∧
    (¬(c.consumed = false ∧ (c.time - s.audioPos) * 1000 > 0) →
      ∀ t ∈ (resumeAudio s).timeouts, t.cueIdx ≠ i))

/- Concrete stories and states used to instantiate the theorems. -/

/-- A loaded story whose single cue fires 2 s into the narration. -/
def story0 : Story := ⟨"histoire zéro", "p0.mp3", "a0.mp3", [⟨2, "joie", false⟩]⟩

/-- A second loaded story whose single cue fires 3 s into the narration. -/
def story1 : Story := ⟨"histoire une", "p1.mp3", "a1.mp3", [⟨3, "peur", false⟩]⟩

/-- A story whose single cue carries an emotion key absent from
`CONFIG.emotionImageMap`. -/
def storyU : Story := ⟨"histoire u", "pU.mp3", "aU.mp3", [⟨1, "dragon", false⟩]⟩

/-- The state right after initialisation with two loaded stories, story 0
selected, nothing playing. -/
def baseState : SchedState where
  timeouts := []
  blinking := false
  closedMouth := false
  keepMouthShut := true
  currentEmotion := none
  isPaused := false
  hasEnded := false
  stories := [story0, story1]
  schedIdx := 0
  audioSrc := "a0.mp3"
  audioPlaying := false
  audioPos := 0
  faceImageSrc := "/qt/normal3.png"
  now := 0
  emotionClears := []

/-- Story 0 playing from position 0 with its cue's trigger armed
(delay (2 − 0) · 1000 = 2000 ms), exactly as `resumeAudio` arms it. -/
def armedState : SchedState :=
  { baseState with timeouts := [⟨0, 0, 2000⟩], audioPlaying := true }

/-- `armedState` right after `selectStory(1)` alone (no `resumeAudio`). -/
def afterSelect1 : SchedState := (selectOk armedState 1).getD baseState

/-- The stale story-0 trigger of `armedState` firing after `selectStory(1)`. -/
def staleFire : SchedState := fireTrigger afterSelect1 ⟨0, 0, 2000⟩

/-- A playing state whose displayed image is the idle mouth-open
composition. -/
def playingOpen : SchedState :=
  { baseState with keepMouthShut := false, audioPlaying := true }

/-- An arbitrary paused state. -/
def pausedState : SchedState :=
  { baseState with isPaused := true, audioPlaying := false }

/-- A state whose playback has ended (`ended` fired during playback, so
`isPaused` is false and the mouth is forced shut). -/
def endedState : SchedState :=
  { baseState with hasEnded := true, audioPos := 2, keepMouthShut := true }

/-- The unmapped-emotion story installed and playing, its cue's trigger
armed (delay (1 − 0) · 1000 = 1000 ms). -/
def unmappedCueState : SchedState :=
  { baseState with stories := [storyU], timeouts := [⟨0, 0, 1000⟩],
                   audioPlaying := true }

/-- Overlay trace, step 0: playing, no overlay, wall clock 0 ms. -/
def overlayIdle : SchedState :=
  { baseState with keepMouthShut := false, audioPlaying := true }

/-- Overlay trace: activation A = `displayEmotion("joie")` at wall clock
0 ms; its auto-clear is scheduled for 0 + emotionDelay = 1000 ms. -/
def overlayA : SchedState := displayEmotion overlayIdle "joie"

/-- Overlay trace: activation B = `displayEmotion("peur")` at wall clock
500 ms, before A's clear has fired; B's own clear is scheduled for
1500 ms. -/
def overlayB : SchedState := displayEmotion { overlayA with now := 500 } "peur"

/-- Overlay trace: wall clock reaches 1000 ms and A's auto-clear — still
scheduled, never cancelled — fires. -/
def overlayAfterStale : SchedState :=
  runEmotionClear { overlayB with now := 1000 } 1000

/-! Helper lemmas. -/

theorem pauseAudio_eq (s : SchedState) :
    pauseAudio s = { s with audioPlaying := false, isPaused := true,
                            keepMouthShut := true, timeouts := [] } := rfl

theorem resumeAudio_not_ended (s : SchedState) (h : s.hasEnded = false) :
    resumeAudio s =
      { s with isPaused := false, keepMouthShut := false, audioPlaying := true,
               timeouts := armTriggers (emotionSchedule s) s.audioPos s.schedIdx } := by
  simp [resumeAudio, scheduleEmotions, clearScheduledEmotions, h, emotionSchedule]

theorem mem_armFrom {pos : ℚ} {si : Nat} :
    ∀ (cues : List Cue) (k : Nat) (t : Trigger),
      t ∈ armFrom pos si k cues ↔
        ∃ j c, cues.get? j = some c ∧ c.consumed = false ∧
          (c.time - pos) * 1000 > 0 ∧ t = ⟨si, k + j, (c.time - pos) * 1000⟩
  | [], k, t => by simp [armFrom]
  | c :: rest, k, t => by
    have ih := @mem_armFrom pos si rest (k + 1) t
    by_cases hc : c.consumed = false ∧ (c.time - pos) * 1000 > 0
    · rw [armFrom, if_pos hc]
      constructor
      · intro hmem
        rcases List.mem_cons.mp hmem with rfl | hmem2
        · exact ⟨0, c, rfl, hc.1, hc.2, by simp⟩
        · rcases ih.mp hmem2 with ⟨j, c2, h1, h2, h3, h4⟩
          have hidx : (k + 1) + j = k + (j + 1) := by omega
          exact ⟨j + 1, c2, by simpa using h1, h2, h3, by rw [h4, hidx]⟩
      · rintro ⟨j, c2, h1, h2, h3, h4⟩
        cases j with
        | zero =>
          obtain rfl : c2 = c := by simpa using h1.symm
          exact List.mem_cons.mpr (Or.inl (by simpa using h4))
        | succ j =>
          refine List.mem_cons.mpr (Or.inr (ih.mpr ⟨j, c2, by simpa using h1, h2, h3, ?_⟩))
          have hidx : (k + 1) + j = k + (j + 1) := by omega
          rw [h4, hidx]
    · rw [armFrom, if_neg hc, ih]
      constructor
      · rintro ⟨j, c2, h1, h2, h3, h4⟩
        have hidx : (k + 1) + j = k + (j + 1) := by omega
        exact ⟨j + 1, c2, by simpa using h1, h2, h3, by rw [h4, hidx]⟩
      · rintro ⟨j, c2, h1, h2, h3, h4⟩
        cases j with
        | zero =>
          obtain rfl : c2 = c := by simpa using h1.symm
          exact absurd ⟨h2, h3⟩ hc
        | succ j =>
          have hidx : (k + 1) + j = k + (j + 1) := by omega
          exact ⟨j, c2, by simpa using h1, h2, h3, by rw [h4, hidx]⟩

theorem nodup_armFrom_keys {pos : ℚ} {si : Nat} :
    ∀ (cues : List Cue) (k : Nat),
      ((armFrom pos si k cues).map Trigger.cueIdx).Nodup
  | [], _ => by simp [armFrom]
  | c :: rest, k => by
    have ih := @nodup_armFrom_keys pos si rest (k + 1)
    by_cases hc : c.consumed = false ∧ (c.time - pos) * 1000 > 0
    · rw [armFrom, if_pos hc]
      simp only [List.map_cons, List.nodup_cons]
      refine ⟨?_, ih⟩
      intro hmem
      rcases List.mem_map.mp hmem with ⟨t, ht, hkey⟩
      rcases (mem_armFrom rest (k + 1) t).mp ht with ⟨j, c2, _, _, _, rfl⟩
      simp only [] at hkey
      omega
    · rw [armFrom, if_neg hc]; exact ih

theorem countP_key_eq_one :
    ∀ (l : List Trigger) (i : Nat),
      (l.map Trigger.cueIdx).Nodup → (∃ t, t ∈ l ∧ t.cueIdx = i) →
      l.countP (fun t => t.cueIdx == i) = 1
  | [], _, _, h => by simp at h
  | a :: l, i, hnd, h => by
    simp only [List.map_cons, List.nodup_cons] at hnd
    by_cases ha : a.cueIdx = i
    · have h0 : l.countP (fun t => t.cueIdx == i) = 0 := by
        rw [List.countP_eq_zero]
        intro t htl
        simp only [beq_iff_eq]
        intro hti
        exact hnd.1 (List.mem_map.mpr ⟨t, htl, by rw [hti, ha]⟩)
      rw [List.countP_cons, h0]
      simp [ha]
    · rcases h with ⟨t, htm, hti⟩
      rcases List.mem_cons.mp htm with rfl | htl
      · exact absurd hti ha
      · have hrec := countP_key_eq_one l i hnd.2 ⟨t, htl, hti⟩
        rw [List.countP_cons, hrec]
        simp [ha]

theorem modifyAt_get_self {α : Type} :
    ∀ (l : List α) (i : Nat) (f : α → α),
      (modifyAt l i f).get? i = (l.get? i).map f
  | [], i, f => by cases i <;> simp [modifyAt]
  | _ :: _, 0, f => by simp [modifyAt]
  | _ :: l, i + 1, f => by
    have ih := modifyAt_get_self l i f
    simp only [List.get?_eq_getElem?] at ih
    simp [modifyAt, ih]

theorem modifyAt_get_ne {α : Type} :
    ∀ (l : List α) (i j : Nat) (f : α → α), i ≠ j →
      (modifyAt l i f).get? j = l.get? j
  | [], _, _, _, _ => by simp [modifyAt]
  | _ :: _, 0, 0, _, h => absurd rfl h
  | _ :: _, 0, _ + 1, f, _ => by simp [modifyAt]
  | _ :: _, _ + 1, 0, f, _ => by simp [modifyAt]
  | _ :: l, i + 1, j + 1, f, h => by
    have ih := modifyAt_get_ne l i j f (fun hij => h (by rw [hij]))
    simp only [List.get?_eq_getElem?] at ih
    simp [modifyAt, ih]

theorem displayEmotion_stories (s : SchedState) (e : String) :
    (displayEmotion s e).stories = s.stories := by
  unfold displayEmotion
  cases h : emotionImageMap e <;> simp [h]

theorem displayEmotion_timeouts (s : SchedState) (e : String) :
    (displayEmotion s e).timeouts = s.timeouts := by
  unfold displayEmotion
  cases h : emotionImageMap e <;> simp [h]

theorem displayEmotion_schedIdx (s : SchedState) (e : String) :
    (displayEmotion s e).schedIdx = s.schedIdx := by
  unfold displayEmotion
  cases h : emotionImageMap e <;> simp [h]

theorem fireTrigger_effect (s : SchedState) (t : Trigger) (c : Cue)
    (hc : getCue s.stories t = some c) :
    getCue (fireTrigger s t).stories t = some { c with consumed := true } ∧
    fireTrigger s t = displayEmotion (markCueConsumed s t) c.emotion := by
  rcases Option.bind_eq_some.mp hc with ⟨st, hst, hcue⟩
  have hfire : fireTrigger s t = displayEmotion (markCueConsumed s t) c.emotion := by
    unfold fireTrigger
    rw [hc]
  refine ⟨?_, hfire⟩
  rw [hfire, displayEmotion_stories]
  show ((modifyAt s.stories t.storyIdx _).get? t.storyIdx).bind _ = _
  rw [modifyAt_get_self, hst]
  show (modifyAt st.emotions t.cueIdx _).get? t.cueIdx = _
  rw [modifyAt_get_self, hcue]
  rfl

/-! Claim theorems. -/

/-- C8: an overlay activation whose emotion key has no entry in
`CONFIG.emotionImageMap` is a silent no-op: the state — current overlay
emotion, displayed image, scheduled auto-clears — is exactly unchanged,
and no exception is possible (the lookup is a plain falsy test). -/
theorem displayEmotion_unmapped_is_noop (s : SchedState) (e : String)
    (h : emotionImageMap e = none) : displayEmotion s e = s := by
  unfold displayEmotion
  rw [h]

theorem displayEmotion_unmapped_is_noop_witness :
    emotionImageMap "dragon" = none ∧ displayEmotion baseState "dragon" = baseState :=
  ⟨rfl, displayEmotion_unmapped_is_noop baseState "dragon" rfl⟩

/-- C4: `resumeAudio()` in the Ended state (reached when the audio `ended`
event fired during playback, so `hasEnded` is set and `isPaused` is not) is
a no-op: the resulting state is identical — audio is not started, no
trigger is armed, and the paused and forced-mouth-shut flags keep their
values.  (The function does write `isPaused = false`, but in any Ended
state that flag is already false.) -/
theorem resume_in_ended_is_noop (s : SchedState) (h1 : s.hasEnded = true)
    (h2 : s.isPaused = false) : resumeAudio s = s := by
  cases s
  simp only at h1 h2
  subst h1
  subst h2
  simp [resumeAudio]

theorem resume_in_ended_is_noop_witness :
    endedState.hasEnded = true ∧ endedState.isPaused = false ∧
      resumeAudio endedState = endedState :=
  ⟨rfl, rfl, resume_in_ended_is_noop endedState rfl rfl⟩

/-- C9: `selectStory(i)` with `i < 0` or `i ≥ stories.length` signals an
error to the caller (`CONFIG.stories[i]` is `undefined`, so reading
`story.emotions` throws before a single assignment has run) and performs no
state mutation: the error carries the state unchanged. -/
theorem selectStory_out_of_range_errors_unchanged (s : SchedState) (i : Int)
    (h : i < 0 ∨ (s.stories.length : Int) ≤ i) :
    selectStory s i = Except.error s := by
  unfold selectStory
  rcases h with h | h
  · rw [if_neg (by omega)]
  · by_cases h0 : 0 ≤ i
    · rw [if_pos h0]
      have hnone : s.stories.get? i.toNat = none := by
        rw [List.get?_eq_none]
        omega
      rw [hnone]
    · rw [if_neg h0]

theorem selectStory_out_of_range_errors_unchanged_witness :
    ((5 : Int) < 0 ∨ (baseState.stories.length : Int) ≤ 5) ∧
      selectStory baseState 5 = Except.error baseState :=
  ⟨Or.inr (by norm_num [baseState]),
   selectStory_out_of_range_errors_unchanged baseState 5
     (Or.inr (by norm_num [baseState]))⟩

/-- C5 (amended): while paused, a render tick changes nothing — the
displayed image stays exactly what it was at pause time, with no
exception; `pauseAudio` sets the forced-mouth-shut flag but does not write
the display, so no mouth-closed composition appears on pause. -/
theorem paused_ticks_freeze_display (s : SchedState) (h : s.isPaused = true) :
    renderTick s = s ∧ (pauseAudio s).faceImageSrc = s.faceImageSrc ∧
      (pauseAudio s).keepMouthShut = true := by
  refine ⟨?_, rfl, rfl⟩
  unfold renderTick
  rw [if_neg (by simp [h])]

theorem paused_ticks_freeze_display_witness :
    pausedState.isPaused = true ∧
      (renderTick pausedState = pausedState ∧
       (pauseAudio pausedState).faceImageSrc = pausedState.faceImageSrc ∧
       (pauseAudio pausedState).keepMouthShut = true) :=
  ⟨rfl, paused_ticks_freeze_display pausedState rfl⟩

/-- C5 (counterexample): pausing a playing state whose display shows the
mouth-open idle image `/qt/normal3.png` sets the forced-mouth-shut flag,
yet neither the pause itself nor the next render tick changes the
displayed image to the mouth-closed composition `/qt/normal2.png` — the
display stays mouth-open, refuting "the displayed image changes at pause
to the mouth-closed composition". -/
theorem pause_keeps_mouth_open_image :
    playingOpen.faceImageSrc = "/qt/normal3.png" ∧
    (pauseAudio playingOpen).keepMouthShut = true ∧
    (pauseAudio playingOpen).faceImageSrc = "/qt/normal3.png" ∧
    (renderTick (pauseAudio playingOpen)).faceImageSrc = "/qt/normal3.png" ∧
    faceComposite (pauseAudio playingOpen) = "/qt/normal2.png" ∧
    "/qt/normal3.png" ≠ "/qt/normal2.png" := by
  refine ⟨rfl, rfl, rfl, ?_, rfl, by decide⟩
  have hpaused : (pauseAudio playingOpen).isPaused = true := rfl
  rw [renderTick, if_neg (by simp [hpaused])]
  rfl

/-- C3 (code bug): `displayEmotion` schedules an unconditional
`currentEmotion = null` after `emotionDelay` and never cancels or tags it,
so a stale clear erases a newer overlay.  Concrete trace: activation A
("joie") at wall clock 0 ms schedules its clear for 1000 ms; activation B
("peur") at 500 ms becomes the current overlay, to last until 1500 ms;
when A's still-pending clear fires at 1000 ms (< 1500 ms) the overlay is
reset to none, cutting B off 500 ms early. -/
theorem stale_autoclear_clears_newer_overlay :
    overlayB.currentEmotion = some "peur" ∧
    overlayB.now = 500 ∧
    overlayB.emotionClears = [1000, 1500] ∧
    (1000 : ℚ) < 500 + emotionDelay ∧
    overlayAfterStale.now = 1000 ∧
    overlayAfterStale.currentEmotion = none := by
  refine ⟨rfl, rfl, ?_, by norm_num [emotionDelay], rfl, rfl⟩
  show ([] ++ [(0 : ℚ) + emotionDelay]) ++ [(500 : ℚ) + emotionDelay] = [1000, 1500]
  norm_num [emotionDelay]

/-- C1: `resumeAudio()` on a non-ended scheduler leaves every consumed flag
unchanged and, for each cue of the installed schedule:
if the cue is unconsumed with positive delay
`(time − currentAudioPosition) * 1000`, exactly one one-shot trigger is
armed for it, carrying that delay and the firing effect "mark consumed,
then activate the Emotion Overlay for the cue's emotion"; any other cue
(already consumed, or delay ≤ 0) gets no trigger now, so it stays
unconsumed and unfired for this resume cycle. -/
theorem resume_arms_unconsumed_future_cues (s : SchedState)
    (h : s.hasEnded = false) : ResumeArms s := by
  have hres := resumeAudio_not_ended s h
  have htime : (resumeAudio s).timeouts =
      armFrom s.audioPos s.schedIdx 0 (emotionSchedule s) := by
    rw [hres]
    rfl
  refine ⟨by rw [hres], ?_⟩
  intro i c hget
  constructor
  · rintro ⟨hcons, hdel⟩
    constructor
    · rw [htime]
      apply countP_key_eq_one _ _ (nodup_armFrom_keys _ 0)
      refine ⟨⟨s.schedIdx, 0 + i, (c.time - s.audioPos) * 1000⟩,
        (mem_armFrom _ 0 _).mpr ⟨i, c, hget, hcons, hdel, rfl⟩, ?_⟩
      show 0 + i = i
      omega
    · intro t htmem hti
      rw [htime] at htmem
      rcases (mem_armFrom _ 0 t).mp htmem with ⟨j, c2, hg2, hc2, hd2, rfl⟩
      have hj : 0 + j = i := hti
      have hj2 : j = i := by omega
      subst hj2
      rw [hget] at hg2
      obtain rfl : c2 = c := (Option.some.inj hg2).symm
      refine ⟨rfl, rfl, ?_⟩
      intro c0 hc0
      exact fireTrigger_effect (resumeAudio s) _ c0 hc0
  · intro hnot t htmem hti
    rw [htime] at htmem
    rcases (mem_armFrom _ 0 t).mp htmem with ⟨j, c2, hg2, hc2, hd2, rfl⟩
    have hj : 0 + j = i := hti
    have hj2 : j = i := by omega
    subst hj2
    rw [hget] at hg2
    obtain rfl : c2 = c := (Option.some.inj hg2).symm
    exact hnot ⟨hc2, hd2⟩

theorem resume_arms_unconsumed_future_cues_witness :
    baseState.hasEnded = false ∧ ResumeArms baseState :=
  ⟨rfl, resume_arms_unconsumed_future_cues baseState rfl⟩

/-- C6: from an Armed-Playing state whose pending triggers are exactly
those `scheduleEmotions` arms at the current audio position, `pauseAudio()`
cancels every pending trigger without firing any (consumed flags and the
overlay are untouched) and `resumeAudio()` at the unchanged position
re-arms exactly the same pending set — same cues, same delays. -/
theorem pause_then_resume_restores_pending (s : SchedState)
    (h1 : s.hasEnded = false) (h2 : s.timeouts = pendingOf s) :
    (pauseAudio s).timeouts = [] ∧
    (pauseAudio s).stories = s.stories ∧
    (pauseAudio s).currentEmotion = s.currentEmotion ∧
    (pauseAudio s).audioPos = s.audioPos ∧
    (resumeAudio (pauseAudio s)).timeouts = s.timeouts := by
  refine ⟨rfl, rfl, rfl, rfl, ?_⟩
  have hpe : (pauseAudio s).hasEnded = false := h1
  rw [resumeAudio_not_ended _ hpe, h2]
  rfl

/-- C7: pending triggers are never duplicated: each `pauseAudio()` leaves
the pending set empty (so two in a row trivially add nothing), and the set
a `resumeAudio()` arms — also when invoked on an already Armed-Playing
scheduler, i.e. twice in a row — holds at most one trigger per cue. -/
theorem no_duplicate_triggers_per_cue (s : SchedState)
    (h : s.hasEnded = false) :
    (pauseAudio s).timeouts = [] ∧
    (pauseAudio (pauseAudio s)).timeouts = [] ∧
    ((resumeAudio s).timeouts.map Trigger.cueIdx).Nodup ∧
    ((resumeAudio (resumeAudio s)).timeouts.map Trigger.cueIdx).Nodup := by
  refine ⟨rfl, rfl, ?_, ?_⟩
  · rw [resumeAudio_not_ended s h]
    exact nodup_armFrom_keys _ 0
  · have h2 : (resumeAudio s).hasEnded = false := by
      rw [resumeAudio_not_ended s h]
      exact h
    rw [resumeAudio_not_ended _ h2]
    exact nodup_armFrom_keys _ 0

theorem pause_then_resume_restores_pending_witness :
    armedState.hasEnded = false ∧ armedState.timeouts = pendingOf armedState ∧
    ((pauseAudio armedState).timeouts = [] ∧
     (pauseAudio armedState).stories = armedState.stories ∧
     (pauseAudio armedState).currentEmotion = armedState.currentEmotion ∧
     (pauseAudio armedState).audioPos = armedState.audioPos ∧
     (resumeAudio (pauseAudio armedState)).timeouts = armedState.timeouts) := by
  have hpend : armedState.timeouts = pendingOf armedState := by
    show [(⟨0, 0, 2000⟩ : Trigger)] = _
    norm_num [pendingOf, armTriggers, armFrom, emotionSchedule, armedState,
      baseState, story0, story1]
  exact ⟨rfl, hpend, pause_then_resume_restores_pending armedState rfl hpend⟩

/-- C2 (counterexample): with story 0's cue trigger pending, `selectStory(1)`
alone — no `resumeAudio()` afterwards — leaves that trigger pending, and
when it fires it still activates the overlay for story 0's cue and flips
that cue's consumed flag: `selectStory` itself cancels nothing. -/
theorem selectStory_keeps_story0_trigger_pending :
    selectOk armedState 1 = some afterSelect1 ∧
    afterSelect1.schedIdx = 1 ∧
    afterSelect1.timeouts = [⟨0, 0, 2000⟩] ∧
    staleFire.currentEmotion = some "joie" ∧
    getCue staleFire.stories ⟨0, 0, 2000⟩ = some ⟨2, "joie", true⟩ := by
  exact ⟨rfl, rfl, rfl, rfl,
    (fireTrigger_effect afterSelect1 ⟨0, 0, 2000⟩ ⟨2, "joie", false⟩ rfl).1⟩

/-- C2 (amended): in the program, `selectStory(i)` is immediately and
synchronously followed by `resumeAudio()` in the story-button click
handler, and it is `resumeAudio`'s `scheduleEmotions` that first cancels
every pending trigger; after the handler runs, every pending trigger
belongs to the newly selected story `i`, so no trigger of the previous
story can ever fire. -/
theorem clickStory_pending_triggers_belong_to_selected (s s1 : SchedState)
    (i : Int) (h : clickStory s i = some s1) :
    s1.schedIdx = i.toNat ∧ ∀ t ∈ s1.timeouts, t.storyIdx = i.toNat := by
  unfold clickStory at h
  cases hsel : selectOk s i with
  | none =>
    rw [hsel] at h
    exact absurd h (by simp)
  | some s2 =>
    rw [hsel] at h
    simp only [Option.map_some'] at h
    obtain rfl : s1 = resumeAudio { s2 with hasEnded := false } :=
      (Option.some.inj h).symm
    have hs2 : s2.schedIdx = i.toNat := by
      unfold selectOk selectStory at hsel
      cases hget : (if 0 ≤ i then s.stories.get? i.toNat else none) with
      | none =>
        rw [hget] at hsel
        exact absurd hsel (by simp)
      | some story =>
        rw [hget] at hsel
        obtain rfl : s2 = _ := (Option.some.inj hsel).symm
        rfl
    have hru := resumeAudio_not_ended ({ s2 with hasEnded := false }) rfl
    constructor
    · rw [hru]
      exact hs2
    · intro t ht
      rw [hru] at ht
      have ht2 : t ∈ armFrom ({ s2 with hasEnded := false } : SchedState).audioPos
          ({ s2 with hasEnded := false } : SchedState).schedIdx 0
          (emotionSchedule { s2 with hasEnded := false }) := ht
      rcases (mem_armFrom _ 0 t).mp ht2 with ⟨j, c2, _, _, _, rfl⟩
      exact hs2

theorem clickStory_pending_triggers_belong_to_selected_witness :
    clickStory armedState 1 = some (resumeAudio { afterSelect1 with hasEnded := false }) ∧
    ((resumeAudio { afterSelect1 with hasEnded := false }).schedIdx = (1 : Int).toNat ∧
     ∀ t ∈ (resumeAudio { afterSelect1 with hasEnded := false }).timeouts,
       t.storyIdx = (1 : Int).toNat) :=
  ⟨rfl, clickStory_pending_triggers_belong_to_selected armedState _ 1 rfl⟩

/-- C10: a fired trigger marks its cue consumed before the overlay
activation runs, so even a cue whose emotion has no display mapping ends
up consumed while displaying nothing (overlay, face image and pending
clears untouched); and since `scheduleEmotions` skips consumed cues and
neither `pauseAudio` nor `resumeAudio` ever resets consumed flags, that
cue is never re-armed by a later resume in the same playback session. -/
theorem fired_trigger_consumes_cue_before_display (s : SchedState)
    (t : Trigger) (c : Cue) (hc : getCue s.stories t = some c)
    (hsi : t.storyIdx = s.schedIdx) :
    getCue (fireTrigger s t).stories t = some { c with consumed := true } ∧
    (emotionImageMap c.emotion = none →
      (fireTrigger s t).currentEmotion = s.currentEmotion ∧
      (fireTrigger s t).faceImageSrc = s.faceImageSrc ∧
      (fireTrigger s t).emotionClears = s.emotionClears) ∧
    (∀ pos : ℚ, ∀ si : Nat,
      ∀ t2 ∈ armTriggers (emotionSchedule (fireTrigger s t)) pos si,
        t2.cueIdx ≠ t.cueIdx) ∧
    (∀ u : SchedState, (pauseAudio u).stories = u.stories) ∧
    (∀ u : SchedState, (resumeAudio u).stories = u.stories) := by
  obtain ⟨heff1, heff2⟩ := fireTrigger_effect s t c hc
  rcases Option.bind_eq_some.mp hc with ⟨st, hst, hcue⟩
  refine ⟨heff1, ?_, ?_, fun u => rfl, ?_⟩
  · intro himg
    rw [heff2]
    unfold displayEmotion
    rw [himg]
    exact ⟨rfl, rfl, rfl⟩
  · intro pos si t2 ht2
    have hsched : emotionSchedule (fireTrigger s t) =
        modifyAt st.emotions t.cueIdx (fun cue => { cue with consumed := true }) := by
      unfold emotionSchedule
      rw [heff2, displayEmotion_stories]
      show ((modifyAt s.stories t.storyIdx _).get?
        (displayEmotion (markCueConsumed s t) c.emotion).schedIdx |>.map Story.emotions).getD [] = _
      rw [displayEmotion_schedIdx]
      show ((modifyAt s.stories t.storyIdx _).get? s.schedIdx |>.map Story.emotions).getD [] = _
      rw [← hsi, modifyAt_get_self, hst]
      rfl
    rw [hsched] at ht2
    have ht3 : t2 ∈ armFrom pos si 0
        (modifyAt st.emotions t.cueIdx (fun cue => { cue with consumed := true })) := ht2
    rcases (mem_armFrom _ 0 t2).mp ht3 with ⟨j, c2, hg2, hc2, _, rfl⟩
    intro hkey
    have hj : 0 + j = t.cueIdx := hkey
    have hj2 : j = t.cueIdx := by omega
    subst hj2
    rw [modifyAt_get_self, hcue] at hg2
    have : c2 = { c with consumed := true } := (Option.some.inj hg2).symm
    rw [this] at hc2
    simp at hc2
  · intro u
    unfold resumeAudio scheduleEmotions clearScheduledEmotions
    cases hu : u.hasEnded <;> simp [hu]

theorem fired_trigger_consumes_cue_before_display_witness :
    getCue unmappedCueState.stories ⟨0, 0, 1000⟩ = some ⟨1, "dragon", false⟩ ∧
    (⟨0, 0, 1000⟩ : Trigger).storyIdx = unmappedCueState.schedIdx ∧
    (getCue (fireTrigger unmappedCueState ⟨0, 0, 1000⟩).stories ⟨0, 0, 1000⟩ =
       some { (⟨1, "dragon", false⟩ : Cue) with consumed := true } ∧
     (emotionImageMap (Cue.mk 1 "dragon" false).emotion = none →
       (fireTrigger unmappedCueState ⟨0, 0, 1000⟩).currentEmotion =
         unmappedCueState.currentEmotion ∧
       (fireTrigger unmappedCueState ⟨0, 0, 1000⟩).faceImageSrc =
         unmappedCueState.faceImageSrc ∧
       (fireTrigger unmappedCueState ⟨0, 0, 1000⟩).emotionClears =
         unmappedCueState.emotionClears) ∧
     (∀ pos : ℚ, ∀ si : Nat,
       ∀ t2 ∈ armTriggers (emotionSchedule (fireTrigger unmappedCueState ⟨0, 0, 1000⟩)) pos si,
         t2.cueIdx ≠ (⟨0, 0, 1000⟩ : Trigger).cueIdx) ∧
     (∀ u : SchedState, (pauseAudio u).stories = u.stories) ∧
     (∀ u : SchedState, (resumeAudio u).stories = u.stories)) :=
  ⟨rfl, rfl,
   fired_trigger_consumes_cue_before_display unmappedCueState ⟨0, 0, 1000⟩
     ⟨1, "dragon", false⟩ rfl rfl⟩

theorem no_duplicate_triggers_per_cue_witness :
    baseState.hasEnded = false ∧
    ((pauseAudio baseState).timeouts = [] ∧
     (pauseAudio (pauseAudio baseState)).timeouts = [] ∧
     ((resumeAudio baseState).timeouts.map Trigger.cueIdx).Nodup ∧
     ((resumeAudio (resumeAudio baseState)).timeouts.map Trigger.cueIdx).Nodup) :=
  ⟨rfl, no_duplicate_triggers_per_cue baseState rfl⟩

end QT
